import Mathlib

/-!
# Verification of `modelator` against its specification

A shallow embedding, in Lean 4, of the parts of the `modelator` Rust crate
that the specification's testable claims are about:

* the TLC output parser (`src/modelator/src/model/checker/tlc/output.rs`,
  function `parse_traces`),
* the write-once cache (`src/modelator/src/cache/mod.rs`),
* the cache-key builder (`src/modelator/src/cache/mod.rs`, function `key`,
  together with `src/modelator/src/util.rs`),
* the transition graph (`src/modelator/src/module/tlc/explorer/graph.rs`),
* the next-states cache-hit check (`src/modelator/src/module/tlc/mod.rs`,
  function `Tlc::next_states`).

Rust strings are modelled as `List Char` (a `String` at the API boundary is
converted through `String.data`); Rust panics (`unwrap`, `assert*`, `todo!`)
are modelled explicitly as a `panic` outcome; fallible Rust functions
returning `Result<_, Error>` are modelled with an explicit error outcome.
-/

/-! ## Basic string helpers (models of Rust `str` methods) -/

/-- Model of Rust `str::starts_with`: `pre` is a prefix of `s`. -/
def hasPrefixL : List Char → List Char → Bool
  | [], _ => true
  | _ :: _, [] => false
  | p :: ps, c :: cs => p = c && hasPrefixL ps cs

/-- Model of Rust `str::split(sep)` / the pieces seen by `splitn(3, sep).nth(1)`:
splits `s` at every occurrence of the character `sep`. -/
def splitAtChar (sep : Char) : List Char → List (List Char)
  | [] => [[]]
  | c :: cs =>
    let rest := splitAtChar sep cs
    if c = sep then
      [] :: rest
    else
      match rest with
      | [] => [[c]]
      | r :: rs => (c :: r) :: rs

/-- Model of Rust `str::split_once(sep)`: splits `s` at the first occurrence
of `sep`, returning `none` when `sep` does not occur. -/
def splitOnceChar (sep : Char) : List Char → Option (List Char × List Char)
  | [] => none
  | c :: cs =>
    if c = sep then
      some ([], cs)
    else
      match splitOnceChar sep cs with
      | none => none
      | some (a, b) => some (c :: a, b)

/-- Model of Rust `str::parse::<usize>()`: an optional leading `+` followed by
at least one decimal digit. Returns `none` on anything else (the source then
panics through `unwrap`). -/
def parseNatR (s : List Char) : Option Nat :=
  let digits := match s with
    | '+' :: rest => rest
    | other => other
  if digits.isEmpty || !digits.all Char.isDigit then
    none
  else
    some (digits.foldl (fun acc c => acc * 10 + (c.toNat - '0'.toNat)) 0)

/-- Model of Rust `str::trim`: drop leading and trailing whitespace. -/
def trimL (s : List Char) : List Char :=
  ((s.dropWhile Char.isWhitespace).reverse.dropWhile Char.isWhitespace).reverse

/-- Model of Rust `str::replace("\n", " ")` for a single-character pattern. -/
def replaceNl (s : List Char) : List Char :=
  s.map fun c => if c = '\n' then ' ' else c

/-- Model of `Vec::join(sep)` on strings: interleave `sep` between the
elements and concatenate. -/
def joinSep (sep : List Char) : List (List Char) → List Char
  | [] => []
  | [x] => x
  | x :: y :: rest => x ++ sep ++ joinSep sep (y :: rest)

/-- `x` occurs (contiguously) inside `m`. -/
def OccursIn (x m : List Char) : Prop :=
  ∃ s t, m = s ++ x ++ t

/-! ## Errors and outcomes -/

/-- The `Error` enum of `src/modelator/src/error.rs` (payloads are modelled
as the strings/numbers they carry; `PathBuf` and `OsString` payloads become
`List Char`). -/
inductive Error where
  | IOErr : List Char → Error
  | InvalidUnicode : List Char → Error
  | FileNotFound : List Char → Error
  | MissingJava : Error
  | MinimumJavaVersion : Nat → Nat → Error
  | NoTestFound : List Char → Error
  | NoTestTraceFound : List Char → Error
  | InvalidTLCOutput : List Char → Error
  | TLCFailure : List Char → Error
  | ApalacheFailure : List Char → Error
  | InvalidApalacheCounterexample : List Char → Error
  | Ureq : List Char → Error
  | Nom : List Char → Error
  | SerdeJson : List Char → Error
  deriving DecidableEq

/-- Outcome of running a Rust function that may panic (`unwrap`,
`assert!`, `todo!`) or return `Result<α, Error>`. -/
inductive RunResult (α : Type) where
  | panic : List Char → RunResult α
  | err : Error → RunResult α
  | ok : α → RunResult α
  deriving DecidableEq

/-! ## TLC output parser (`model/checker/tlc/output.rs`) -/

/-- One TLA+ state, the textual block TLC printed for it
(`type TlaState = String` in `artifact/mod.rs`). -/
abbrev TlaState := List Char

/-- A TLA+ trace: the ordered sequence of its states, `add` appending at the
end (`struct Trace { states: Vec<TLAState> }` in `mc/trace.rs`). -/
abbrev TlaTrace := List TlaState

/-- The part of `ModelCheckerRuntime` (`model/checker/mod.rs`) used by
`parse_traces`: the log-file path. -/
structure ModelCheckerRuntime where
  log : List Char
  deriving DecidableEq

/-- The grouped message stream
`HashMap<u8, HashMap<usize, Vec<String>>>` keyed by
(message class, message code), flattened to an association list whose keys
appear in first-insertion order. (Rust `HashMap` iteration order is
unspecified; insertion order is the canonical choice made by this model.) -/
abbrev Grouped := List ((Nat × Nat) × List (List Char))

/-- `parsed_output.entry(class).or_default().entry(code).or_default().push(body)`. -/
def groupPush (k : Nat × Nat) (body : List Char) : Grouped → Grouped
  | [] => [(k, [body])]
  | (k', bs) :: rest =>
    if k' = k then
      (k', bs ++ [body]) :: rest
    else
      (k', bs) :: groupPush k body rest

/-- `parsed_output.get(&class).and_then(|x| x.get(&code))`. -/
def groupGet (g : Grouped) (k : Nat × Nat) : Option (List (List Char)) :=
  match g.find? (fun e => e.1 = k) with
  | some (_, bs) => some bs
  | none => none

/-- `parsed_output.get(&class)`, as the list of `(code, bodies)` entries of
one class, in first-insertion order of the codes. -/
def classEntries (g : Grouped) (class' : Nat) : List (Nat × List (List Char)) :=
  g.filterMap fun e => if e.1.1 = class' then some (e.1.2, e.2) else none

/-- The mutable state of the line-grouping loop of `parse_traces`:
the grouped bodies so far, the `(code, class)` of the currently open message,
and the accumulated body of the currently open message. -/
structure GroupState where
  grouped : Grouped
  currId : Option (Nat × Nat)
  currMsg : List Char
  deriving DecidableEq

/-- Push the accumulated message under the taken current id (defaulting to
`(0, 0)`), as both the `STARTMSG` and the `ENDMSG` branches do. -/
def flushCurr (st : GroupState) : GroupState :=
  let (code, class') := st.currId.getD (0, 0)
  { grouped := groupPush (class', code) st.currMsg st.grouped
    currId := none
    currMsg := [] }

/-- One iteration of the `output.lines().for_each(...)` loop of
`parse_traces`. `Except.error` models a panic aborting the loop. -/
def processLine (st : GroupState) (line : List Char) : Except (List Char) GroupState :=
  if hasPrefixL "@!@!@STARTMSG ".data line then
    let st := flushCurr st
    match (splitAtChar ' ' line)[1]? with
    | none => .error "called Option::unwrap on a None value".data
    | some field =>
      match splitOnceChar ':' field with
      | none => .error "called Option::unwrap on a None value".data
      | some (codeS, classS) =>
        match parseNatR codeS, parseNatR classS with
        | some code, some class' =>
          -- the class is parsed as `u8`: values above 255 fail to parse
          if class' ≤ 255 then
            .ok { st with currId := some (code, class') }
          else
            .error "called Result::unwrap on an Err value".data
        | _, _ => .error "called Result::unwrap on an Err value".data
  else if hasPrefixL "@!@!@ENDMSG ".data line then
    let code := (st.currId.getD (0, 0)).1
    let st := flushCurr st
    match (splitAtChar ' ' line)[1]? with
    | none => .error "called Option::unwrap on a None value".data
    | some field =>
      match parseNatR field with
      | none => .error "called Result::unwrap on an Err value".data
      | some cCode =>
        if code = cCode then
          .ok st
        else
          .error "assertion failed: left == right".data
  else
    .ok { st with currMsg := st.currMsg ++ line ++ ['\n'] }

/-- The whole grouping loop, over the list of lines of TLC's stdout. -/
def processLines (st : GroupState) : List (List Char) → Except (List Char) GroupState
  | [] => .ok st
  | line :: rest =>
    match processLine st line with
    | .error m => .error m
    | .ok st' => processLines st' rest

/-- Group the output lines into the `(class, code) → bodies` map. -/
def groupOutput (lines : List (List Char)) : Except (List Char) GroupState :=
  processLines ⟨[], none, []⟩ lines

/-- First line of a state body marking the start of a new trace:
`line.starts_with("1: <Initial predicate>")`. -/
def isInitialBody (body : List Char) : Bool :=
  hasPrefixL "1: <Initial predicate>".data body

/-- The `for line in lines` loop of the trace-extraction branch of
`parse_traces`, plus the final flush of the last open trace.
`trace` is the currently open trace (`Option<TlaTrace>`), `traces` the
emitted ones. `Except.error` models the `unwrap` panic on a body without
a newline. -/
def buildTraces (trace : Option TlaTrace) (traces : List TlaTrace) :
    List (List Char) → Except (List Char) (List TlaTrace)
  | [] => .ok (traces ++ trace.toList)
  | body :: rest =>
    let traces' := if isInitialBody body then traces ++ trace.toList else traces
    let trace' := if isInitialBody body then some [] else trace
    match trace' with
    | some t =>
      match splitOnceChar '\n' body with
      | none => .error "called Option::unwrap on a None value".data
      | some (_, stateText) => buildTraces (some (t ++ [stateText])) traces' rest
    | none => buildTraces none traces' rest

/-- The error message built for `Error::TLCFailure`: one line
`"[<log-path>:<code>]: <bodies, each trimmed and newline-flattened, joined by spaces>"`
per `(code, bodies)` entry of class 1, joined by newlines. -/
def tlcFailureMessage (runtime : ModelCheckerRuntime) (errors : List (Nat × List (List Char))) :
    List Char :=
  joinSep "\n".data
    (errors.map fun (code, bodies) =>
      "[".data ++ runtime.log ++ ":".data ++ (Nat.repr code).data ++ "]: ".data ++
        joinSep " ".data (bodies.map fun b => replaceNl (trimL b)))

/-- `parse_traces` of `src/modelator/src/model/checker/tlc/output.rs`:
group the output lines into `(class, code) → bodies`; if class 4 / code 2217
(state prints) is present, build traces from those bodies; otherwise, if
class 1 (errors) is present, fail with `TLCFailure`; otherwise succeed with
no traces. -/
def parse_traces (lines : List (List Char)) (runtime : ModelCheckerRuntime) :
    RunResult (List TlaTrace) :=
  match groupOutput lines with
  | .error m => .panic m
  | .ok st =>
    match groupGet st.grouped (4, 2217) with
    | some bodies =>
      match buildTraces none [] bodies with
      | .error m => .panic m
      | .ok traces => .ok traces
    | none =>
      match classEntries st.grouped 1 with
      | [] => .ok []
      | errors => .err (.TLCFailure (tlcFailureMessage runtime errors))

/-! ## Transition graph (`module/tlc/explorer/graph.rs`) -/

/-- The transition graph: the set of nodes (kept in insertion order) and the
set of directed edges. Mirrors `Graph<N> { nodes, graph }` where the petgraph
adjacency structure is represented by its edge list. -/
structure Graph (N : Type) where
  nodes : List N
  edges : List (N × N)
  deriving DecidableEq

namespace Graph

variable {N : Type} [DecidableEq N]

/-- `Graph::new`. -/
def new : Graph N := ⟨[], []⟩

/-- `Graph::node_index`: add the node in case it has not been added. -/
def addNode (g : Graph N) (n : N) : Graph N :=
  if n ∈ g.nodes then g else { g with nodes := g.nodes ++ [n] }

/-- `Graph::add_edge`: add both endpoints, then the edge; `update_edge`
ensures the edge is never duplicated. -/
def add_edge (g : Graph N) (a b : N) : Graph N :=
  let g := (g.addNode a).addNode b
  if (a, b) ∈ g.edges then g else { g with edges := g.edges ++ [(a, b)] }

/-- `Graph::add_path`: add an edge between every two consecutive nodes. -/
def add_path (g : Graph N) : List N → Graph N
  | [] => g
  | [_] => g
  | a :: b :: rest => (g.add_edge a b).add_path (b :: rest)

/-- The neighbors of `n`: targets of the edges leaving `n` (petgraph
`Graph::neighbors`; the iteration order there is reverse insertion order,
which no claim depends on). -/
def neighbors (g : Graph N) (n : N) : List N :=
  (g.edges.filter fun e => e.1 = n).map Prod.snd

/-- The recursion of `Graph::do_all_paths`, driven by the structural fuel
`max_len - path.length - 1` (the number of pushes still allowed after the
current one): push `node` onto the path, record the new path, and recurse
into the neighbors unless the path has reached `max_len`. (The source
checks `path.len() == max_len` after pushing; on every reachable call
`path.len() < max_len` holds, so running out of fuel and the source's `==`
guard agree.) -/
def doAllPathsGo (g : Graph N) (max_len : Nat) : Nat → N → List N → List (List N)
  | 0, node, path => [path ++ [node]]
  | fuel + 1, node, path =>
    if (path ++ [node]).length < max_len then
      (path ++ [node]) :: (g.neighbors node).flatMap fun nb =>
        doAllPathsGo g max_len fuel nb (path ++ [node])
    else
      [path ++ [node]]

/-- `Graph::do_all_paths`: depth-first search collecting, as a result, every
path extending `path` by `node` and then by neighbors, until the path
traversed reaches `max_len`. -/
def do_all_paths (g : Graph N) (node : N) (max_len : Nat) (path : List N) :
    List (List N) :=
  doAllPathsGo g max_len (max_len - (path.length + 1)) node path

/-- `Graph::all_paths`: all paths starting from `from_` with length up to
`max_len`; empty if `max_len = 0` or `from_` is not in the graph. -/
def all_paths (g : Graph N) (from_ : N) (max_len : Nat) : List (List N) :=
  if max_len = 0 then
    []
  else if from_ ∈ g.nodes then
    do_all_paths g from_ max_len []
  else
    []

/-- The edge relation of the graph. -/
def HasEdge (g : Graph N) (a b : N) : Prop := (a, b) ∈ g.edges

instance (g : Graph N) (a b : N) : Decidable (g.HasEdge a b) :=
  inferInstanceAs (Decidable ((a, b) ∈ g.edges))

end Graph

/-! ## Cache (`cache/mod.rs`) -/

/-- Association-list lookup keyed by strings (used for file systems and
directories below). -/
def alookup {β : Type} (d : List (List Char × β)) (k : List Char) : Option β :=
  match d.find? (fun e => e.1 = k) with
  | some e => some e.2
  | none => none

/-- Update the entry for `k` (creating it at the end when absent), the effect
of `File::create` followed by a successful write. -/
def setEntry {β : Type} (d : List (List Char × β)) (k : List Char) (v : β) :
    List (List Char × β) :=
  match d with
  | [] => [(k, v)]
  | (k', v') :: rest => if k' = k then (k, v) :: rest else (k', v') :: setEntry rest k v

/-- Contents of one cache table directory: file name → file content, in
directory-listing order. -/
abbrev CacheDir := List (List Char × List Char)

/-- The serializer/deserializer pair `serde_json` provides for the cached
value type `V`; `encode` returns the error message on a serialization
failure, `decode` on a deserialization failure. -/
structure Serde (V : Type) where
  encode : V → Except (List Char) (List Char)
  decode : List Char → Except (List Char) V

/-- The `Cache` struct: its directory contents and the in-memory key index
`cached_keys`. -/
structure CacheState where
  cache_dir : CacheDir
  cached_keys : List (List Char)
  deriving DecidableEq

namespace CacheState

/-- `Cache::new`: read the file names of the cache directory into the
in-memory index. -/
def new (d : CacheDir) : CacheState :=
  ⟨d, d.map Prod.fst⟩

/-- `Cache::get`: `None` when the key is not indexed; otherwise open the
blob and deserialize it. -/
def get {V : Type} (sd : Serde V) (st : CacheState) (key : List Char) :
    RunResult (Option V) :=
  if key ∈ st.cached_keys then
    match alookup st.cache_dir key with
    | none => .err (.IOErr "No such file or directory".data)
    | some blob =>
      match sd.decode blob with
      | .error m => .err (.SerdeJson m)
      | .ok v => .ok (some v)
  else
    .ok none

/-- `Cache::insert`: assert the key is not cached yet (a double insert is a
panic), create the blob file, serialize into it, then mark the key indexed.
`File::create` truncates/creates the on-disk file *before* serialization is
attempted, so a failed serialization leaves an (empty) blob behind. -/
def insert {V : Type} (sd : Serde V) (st : CacheState) (key : List Char) (v : V) :
    RunResult Unit × CacheState :=
  if key ∈ st.cached_keys then
    (.panic "[modelator] trying to cache a key already cached".data, st)
  else
    let created := setEntry st.cache_dir key []
    match sd.encode v with
    | .error m => (.err (.SerdeJson m), { st with cache_dir := created })
    | .ok blob =>
      (.ok (), { cache_dir := setEntry st.cache_dir key blob
                 cached_keys := st.cached_keys ++ [key] })

/-- The set of blob files present in the table directory. -/
def dirFiles (st : CacheState) : List (List Char) :=
  st.cache_dir.map Prod.fst

end CacheState

/-! ## Cache key (`cache/mod.rs::key`, `util.rs`) -/

/-- Model of Rust `str::ends_with`. -/
def endsWithL (suf s : List Char) : Bool :=
  hasPrefixL suf.reverse s.reverse

/-- `Path::join` for a directory and a file name. -/
def joinPath (dir name : List Char) : List Char :=
  dir ++ '/' :: name

/-- A TLA+ file artifact, identified by its containing directory and its
file name (`TlaFile::dir` / `TlaFile::path`). Paths in this model are
already canonical/absolute. -/
structure TlaFile where
  dir : List Char
  name : List Char
  deriving DecidableEq

/-- `TlaFile::path`. -/
def TlaFile.path (f : TlaFile) : List Char :=
  joinPath f.dir f.name

/-- A TLA+ config file artifact (`TlaConfigFile::path`). -/
structure TlaConfigFile where
  path : List Char
  deriving DecidableEq

/-- The file system seen by the cache-key computation: directory listings
(directory path → file names) and file contents (absolute file path →
content). -/
structure FileSys where
  dirs : List (List Char × List (List Char))
  files : List (List Char × List Char)

/-- `util::read_dir`: the file names in a directory; `Error::io` when the
directory cannot be read. -/
def read_dir (fs : FileSys) (d : List Char) : RunResult (List (List Char)) :=
  match alookup fs.dirs d with
  | none => .err (.IOErr "No such file or directory".data)
  | some names => .ok names

/-- `util::absolute_path`: canonicalize a path, which panics when the path
does not exist (`canonicalize` then `unwrap`). Paths in this model are
already canonical, so canonicalization is the identity on existing paths. -/
def absolute_path (fs : FileSys) (p : List Char) : RunResult (List Char) :=
  if (alookup fs.files p).isSome then
    .ok p
  else
    .panic "[modelator] couldn't compute absolute path".data

/-- `absolute_path` mapped over a list of paths (the `.map(...)` step of the
`files_to_hash` iterator chain): the first missing path panics. -/
def mapAbsolute (fs : FileSys) : List (List Char) → RunResult (List (List Char))
  | [] => .ok []
  | p :: rest =>
    match absolute_path fs p with
    | .panic m => .panic m
    | .err e => .err e
    | .ok p' =>
      match mapAbsolute fs rest with
      | .panic m => .panic m
      | .err e => .err e
      | .ok ps => .ok (p' :: ps)

/-- Insertion into a `BTreeSet<String>`: keep the list sorted (by the
lexicographic string order) and duplicate-free. -/
def sortedInsert (x : List Char) : List (List Char) → List (List Char)
  | [] => [x]
  | y :: ys =>
    if x < y then x :: y :: ys
    else if x = y then y :: ys
    else y :: sortedInsert x ys

/-- `collect()` into a `BTreeSet<String>`, then iterate it: the
lexicographically sorted deduplicated list of the inputs. -/
def btreeCollect (l : List (List Char)) : List (List Char) :=
  l.foldl (fun acc x => sortedInsert x acc) []

/-- `util::digest::digest_files` with the SHA-256 digest idealized as the
(collision-free) concatenation of all bytes fed to it: fold the contents of
the given files, in order, into the running transcript. `Error::io` when a
file cannot be opened. -/
def digest_files (fs : FileSys) : List (List Char) → RunResult (List Char)
  | [] => .ok []
  | p :: rest =>
    match alookup fs.files p with
    | none => .err (.IOErr "No such file or directory".data)
    | some content =>
      match digest_files fs rest with
      | .panic m => .panic m
      | .err e => .err e
      | .ok acc => .ok (content ++ acc)

/-- `cache::key`: hash every `.tla` sibling of the primary file plus the
config file (canonicalized, sorted, deduplicated), then feed the primary
file's own absolute path into the same running digest and finalize. -/
def cacheKey (fs : FileSys) (tla_file : TlaFile) (tla_config_file : TlaConfigFile) :
    RunResult (List Char) :=
  match read_dir fs tla_file.dir with
  | .panic m => .panic m
  | .err e => .err e
  | .ok names =>
    let files_to_hash :=
      (names.filter fun n => endsWithL ".tla".data n).map (joinPath tla_file.dir) ++
        [tla_config_file.path]
    match mapAbsolute fs files_to_hash with
    | .panic m => .panic m
    | .err e => .err e
    | .ok absPaths =>
      match digest_files fs (btreeCollect absPaths) with
      | .panic m => .panic m
      | .err e => .err e
      | .ok digest =>
        match absolute_path fs tla_file.path with
        | .panic m => .panic m
        | .err e => .err e
        | .ok tlaAbs => .ok (digest ++ tlaAbs)

/-! ## Next-states cache-hit check (`module/tlc/mod.rs::Tlc::next_states`) -/

/-- What the body of `Tlc::next_states` does after retrieving the known next
states of the start state from the cached session. -/
inductive NextStatesOutcome where
  | todoPanic : NextStatesOutcome
  | checkerQuery : NextStatesOutcome
  deriving DecidableEq

/-- The `if let Some(known_next_states) = known_next_states { if
known_next_states.len() - skip >= count { todo!() } }` check of
`Tlc::next_states`: when enough states are known, the source hits `todo!()`
(a panic); otherwise it falls through to synthesizing an explorer module and
invoking the checker. (`len - skip` is `usize` subtraction, modelled as
truncated `Nat` subtraction; the claims only involve `skip ≤ len`.) -/
def next_states_cached_check (known_next_states : Option (List TlaState))
    (count skip : Nat) : NextStatesOutcome :=
  match known_next_states with
  | some known =>
    if known.length - skip ≥ count then .todoPanic else .checkerQuery
  | none => .checkerQuery

/-! ## Helper lemmas: cache -/

/-- Looking up a key right after `setEntry` wrote it yields the new value. -/
theorem alookup_setEntry_self {β : Type} (d : List (List Char × β)) (k : List Char) (v : β) :
    alookup (setEntry d k v) k = some v := by
  induction d with
  | nil => simp [setEntry, alookup, List.find?]
  | cons e rest ih =>
    by_cases h : e.1 = k
    · simp [setEntry, h, alookup, List.find?]
    · simpa [setEntry, h, alookup, List.find?] using ih

/-- The identity serializer: used to instantiate the generic cache at the
value type `List Char`. -/
def idSerde : Serde (List Char) :=
  ⟨Except.ok, Except.ok⟩

/-- A serializer that always fails, as `serde_json` does on values it cannot
represent (e.g. maps with non-string keys). -/
def failSerde : Serde Unit :=
  ⟨fun _ => .error "key must be a string".data,
   fun _ => .error "key must be a string".data⟩

/-- C4: a key never written reads as `None`; a successfully inserted key
reads back as `Some` of the inserted value (given that the serializer
round-trips on that value); and a cache reopened over the same directory
(when the index mirrors the directory, as construction guarantees) answers
every `get` exactly as the original instance — `get` never invokes any
producer, it only reads the directory. -/
theorem cache_get_insert_reopen {V : Type} (sd : Serde V) (d : CacheDir)
    (st : CacheState) (k : List Char) (v : V) (b : List Char) :
    (k ∉ (CacheState.new d).cached_keys → CacheState.get sd (CacheState.new d) k = .ok none)
    ∧ (k ∉ st.cached_keys → sd.encode v = .ok b → sd.decode b = .ok v →
        (CacheState.insert sd st k v).1 = .ok ()
          ∧ CacheState.get sd (CacheState.insert sd st k v).2 k = .ok (some v))
    ∧ (st.cached_keys = st.dirFiles →
        ∀ k', CacheState.get sd (CacheState.new st.cache_dir) k' = CacheState.get sd st k') := by
  refine ⟨fun h => by simp [CacheState.get, h], fun hk he hd => ?_, fun hw k' => ?_⟩
  · constructor
    · simp [CacheState.insert, hk, he]
    · simp [CacheState.insert, hk, he, CacheState.get, alookup_setEntry_self, hd]
  · have : CacheState.new st.cache_dir = st := by
      cases st with
      | mk dir keys =>
        simp only [CacheState.new, CacheState.dirFiles] at hw ⊢
        rw [hw]
    rw [this]

/-- C4 witness: on the identity serializer over the empty directory, the
key `A` reads as `None`, reads back as `Some "10"` after insertion, and the
reopened cache agrees with the current one. -/
theorem cache_get_insert_reopen_witness :
    (CacheState.get idSerde (CacheState.new []) "A".data = .ok none)
    ∧ ((CacheState.insert idSerde (CacheState.new []) "A".data "10".data).1 = .ok ()
        ∧ CacheState.get idSerde (CacheState.insert idSerde (CacheState.new []) "A".data "10".data).2
            "A".data = .ok (some "10".data))
    ∧ (CacheState.get idSerde (CacheState.new (CacheState.new ([] : CacheDir)).cache_dir) "A".data
        = CacheState.get idSerde (CacheState.new []) "A".data) := by
  have h := cache_get_insert_reopen idSerde [] (CacheState.new []) "A".data "10".data "10".data
  exact ⟨h.1 (by decide), ⟨h.2.1 (by decide) rfl rfl, h.2.2 (by decide) "A".data⟩⟩

/-- C9: an insert whose serialization fails leaves the blob file created by
`File::create` on disk while the key is never marked as indexed: starting
from an empty table, inserting key `k` with a failing serializer yields a
state whose directory contains the blob `k` but whose in-memory index is
still empty — the in-memory key index and the on-disk blob set disagree. -/
theorem cache_insert_serde_failure_breaks_index :
    (CacheState.insert failSerde (CacheState.new []) "k".data ()).1
        = .err (.SerdeJson "key must be a string".data)
    ∧ (CacheState.insert failSerde (CacheState.new []) "k".data ()).2.cached_keys = []
    ∧ (CacheState.insert failSerde (CacheState.new []) "k".data ()).2.dirFiles = ["k".data] := by
  refine ⟨?_, ?_, ?_⟩ <;> rfl

/-- C6: with `known = [s1, s2]` cached for the start state and a request
for `count = 2, skip = 0`, the cache-hit condition of `Tlc::next_states`
holds and the source reaches `todo!()` — it panics instead of returning the
cached states. -/
theorem next_states_cache_hit_is_todo :
    next_states_cached_check (some ["s1".data, "s2".data]) 2 0 = .todoPanic := by
  rfl

/-! ## Helper lemmas: graph -/

namespace Graph

variable {N : Type} [DecidableEq N]

/-- `b` is a neighbor of `a` exactly when the edge `a → b` is present. -/
theorem mem_neighbors (g : Graph N) (a b : N) :
    b ∈ g.neighbors a ↔ g.HasEdge a b := by
  simp only [neighbors, HasEdge, List.mem_map, List.mem_filter]
  constructor
  · rintro ⟨⟨u, v⟩, ⟨hmem, hfst⟩, hsnd⟩
    simp only [decide_eq_true_eq] at hfst
    simp only at hsnd
    subst hfst
    subst hsnd
    exact hmem
  · intro h
    exact ⟨(a, b), ⟨h, by simp⟩, rfl⟩

/-- Membership in the depth-first search result: exactly the extensions of
`path` by an edge-walk beginning at `node`, of total length at most
`max_len`. -/
theorem mem_doAllPathsGo (g : Graph N) (max_len : Nat) :
    ∀ (fuel : Nat) (node : N) (path q : List N),
      path.length + 1 + fuel = max_len →
      (q ∈ doAllPathsGo g max_len fuel node path ↔
        ∃ r, q = path ++ node :: r ∧ List.Chain' g.HasEdge (node :: r)
          ∧ q.length ≤ max_len) := by
  intro fuel
  induction fuel with
  | zero =>
    intro node path q hfuel
    simp only [doAllPathsGo, List.mem_singleton]
    constructor
    · rintro rfl
      exact ⟨[], rfl, List.chain'_singleton node, by simp; omega⟩
    · rintro ⟨r, rfl, hchain, hlen⟩
      have hr : r = [] := by
        simp only [List.length_append, List.length_cons] at hlen
        exact List.length_eq_zero.mp (by omega)
      subst hr
      rfl
  | succ fuel ih =>
    intro node path q hfuel
    have hcond : (path ++ [node]).length < max_len := by
      simp only [List.length_append, List.length_cons, List.length_nil]
      omega
    simp only [doAllPathsGo, if_pos hcond, List.mem_cons, List.mem_flatMap]
    have hfuel' : (path ++ [node]).length + 1 + fuel = max_len := by
      simp only [List.length_append, List.length_cons, List.length_nil]
      omega
    constructor
    · rintro (rfl | ⟨nb, hnb, hq⟩)
      · exact ⟨[], rfl, List.chain'_singleton node, by
          simp only [List.length_append, List.length_cons, List.length_nil]
          omega⟩
      · obtain ⟨r', hq', hchain', hlen'⟩ := (ih nb (path ++ [node]) q hfuel').mp hq
        refine ⟨nb :: r', by simpa using hq', ?_, hlen'⟩
        rw [List.chain'_cons]
        exact ⟨(g.mem_neighbors node nb).mp hnb, hchain'⟩
    · rintro ⟨r, rfl, hchain, hlen⟩
      cases r with
      | nil => left; simp
      | cons nb r' =>
        right
        rw [List.chain'_cons] at hchain
        refine ⟨nb, (g.mem_neighbors node nb).mpr hchain.1, ?_⟩
        rw [ih nb (path ++ [node]) (path ++ node :: nb :: r') hfuel']
        exact ⟨r', by simp, hchain.2, hlen⟩

/-- Membership in `all_paths`: exactly the edge-walks starting at `x` of
length between 1 and `max_len`, provided `x` is a node of the graph. -/
theorem mem_all_paths (g : Graph N) (x : N) (k : Nat) (q : List N) :
    q ∈ g.all_paths x k ↔
      x ∈ g.nodes ∧ q.head? = some x ∧ List.Chain' g.HasEdge q
        ∧ 1 ≤ q.length ∧ q.length ≤ k := by
  by_cases hk : k = 0
  · subst hk
    have hnil : g.all_paths x 0 = [] := by simp [all_paths]
    rw [hnil]
    simp only [List.not_mem_nil, false_iff]
    rintro ⟨-, -, -, h1, h2⟩
    omega
  · unfold all_paths
    by_cases hx : x ∈ g.nodes
    · rw [if_neg hk, if_pos hx]
      unfold do_all_paths
      rw [g.mem_doAllPathsGo k (k - (([] : List N).length + 1)) x [] q
          (by simp only [List.length_nil]; omega)]
      constructor
      · rintro ⟨r, rfl, hchain, hlen⟩
        exact ⟨hx, rfl, by simpa using hchain, by simp, by simpa using hlen⟩
      · rintro ⟨-, hhead, hchain, h1, h2⟩
        cases q with
        | nil => simp at hhead
        | cons a r =>
          simp only [List.head?_cons, Option.some.injEq] at hhead
          subst hhead
          exact ⟨r, by simp, hchain, h2⟩
    · rw [if_neg hk, if_neg hx]
      simp only [List.not_mem_nil, false_iff]
      rintro ⟨h, -⟩
      exact hx h

end Graph

/-- The graph with the single edge `0 → 1`. -/
def lineGraph : Graph Nat := Graph.add_path Graph.new [0, 1]

/-- The graph with the cycle `0 → 1 → 0`. -/
def cycleGraph : Graph Nat := Graph.add_path Graph.new [0, 1, 0]

/-- The alternating walk of length `n` through the cycle `0 → 1 → 0`,
starting at `b`. -/
def altWalk : Nat → Nat → List Nat
  | _, 0 => []
  | b, n + 1 => b :: altWalk (1 - b) n

theorem altWalk_length (b n : Nat) : (altWalk b n).length = n := by
  induction n generalizing b with
  | zero => rfl
  | succ n ih => simp [altWalk, ih]

theorem altWalk_chain (n : Nat) : ∀ b, b = 0 ∨ b = 1 →
    List.Chain' cycleGraph.HasEdge (altWalk b n) := by
  induction n with
  | zero => intro b _; simp [altWalk]
  | succ n ih =>
    intro b hb
    cases n with
    | zero => simp [altWalk]
    | succ m =>
      show List.Chain' cycleGraph.HasEdge (b :: (1 - b) :: altWalk (1 - (1 - b)) m)
      rw [List.chain'_cons]
      have hedge : cycleGraph.HasEdge b (1 - b) := by
        rcases hb with rfl | rfl <;> decide
      have hb' : 1 - b = 0 ∨ 1 - b = 1 := by omega
      exact ⟨hedge, ih (1 - b) hb'⟩

/-- C3: `all_paths n 0` is empty; `all_paths n k` is empty when `n` is not
in the graph; otherwise `all_paths from max_len` contains exactly the
directed walks starting at `from` of length 1 through `max_len` (so every
prefix of a longer walk is itself a member, walks may traverse cycles, and
no member is longer than `max_len`). In particular, for the single edge
`0 → 1`: `all_paths 0 1 = {[0]}` and `all_paths 0 2 = {[0], [0,1]}`; and
for the cycle `0 → 1 → 0` the result strictly grows with `max_len`. -/
theorem all_paths_characterization :
    (∀ (N : Type) [DecidableEq N] (g : Graph N) (n : N), g.all_paths n 0 = [])
    ∧ (∀ (N : Type) [DecidableEq N] (g : Graph N) (n : N) (k : Nat),
        n ∉ g.nodes → g.all_paths n k = [])
    ∧ (∀ (N : Type) [DecidableEq N] (g : Graph N) (x : N) (k : Nat) (q : List N),
        q ∈ g.all_paths x k ↔
          x ∈ g.nodes ∧ q.head? = some x ∧ List.Chain' g.HasEdge q
            ∧ 1 ≤ q.length ∧ q.length ≤ k)
    ∧ (lineGraph.all_paths 0 1 = [[0]] ∧ lineGraph.all_paths 0 2 = [[0], [0, 1]])
    ∧ (∀ k : Nat,
        (∀ p, p ∈ cycleGraph.all_paths 0 k → p ∈ cycleGraph.all_paths 0 (k + 1))
        ∧ ∃ p, p ∈ cycleGraph.all_paths 0 (k + 1) ∧ p ∉ cycleGraph.all_paths 0 k) := by
  refine ⟨?_, ?_, ?_, by decide, ?_⟩
  · intro N _ g n
    simp [Graph.all_paths]
  · intro N _ g n k h
    simp [Graph.all_paths, h]
  · intro N _ g x k q
    exact g.mem_all_paths x k q
  · intro k
    constructor
    · intro p hp
      rw [Graph.mem_all_paths] at hp ⊢
      obtain ⟨h1, h2, h3, h4, h5⟩ := hp
      exact ⟨h1, h2, h3, h4, by omega⟩
    · refine ⟨altWalk 0 (k + 1), ?_, ?_⟩
      · rw [Graph.mem_all_paths]
        refine ⟨by decide, ?_, altWalk_chain (k + 1) 0 (Or.inl rfl), ?_, ?_⟩
        · show (0 :: altWalk 1 k).head? = some 0
          rfl
        · rw [altWalk_length]; omega
        · rw [altWalk_length]
      · intro hmem
        rw [Graph.mem_all_paths] at hmem
        have := hmem.2.2.2.2
        rw [altWalk_length] at this
        omega

/-- C3 witness: the characterization instantiated at concrete inputs — a
node absent from the graph yields no paths, and `[0]` is recognized as a
path of the single-edge graph. -/
theorem all_paths_characterization_witness :
    (lineGraph.all_paths 5 3 = [])
    ∧ ([0] ∈ lineGraph.all_paths 0 1 ↔
        0 ∈ lineGraph.nodes ∧ ([0] : List Nat).head? = some 0
          ∧ List.Chain' lineGraph.HasEdge [0]
          ∧ 1 ≤ ([0] : List Nat).length ∧ ([0] : List Nat).length ≤ 1) :=
  ⟨all_paths_characterization.2.1 Nat lineGraph 5 3 (by decide),
   all_paths_characterization.2.2.1 Nat lineGraph 0 1 [0]⟩

/-! ## Helper lemmas: cache key -/

instance : IsAntisymm (List Char) (· < ·) :=
  ⟨fun _ _ h1 h2 => absurd h2 (lt_asymm h1)⟩

theorem mem_sortedInsert (x z : List Char) (l : List (List Char)) :
    z ∈ sortedInsert x l ↔ z = x ∨ z ∈ l := by
  induction l with
  | nil => simp [sortedInsert]
  | cons y ys ih =>
    by_cases hlt : x < y
    · simp [sortedInsert, hlt]
    · by_cases heq : x = y
      · subst heq
        rw [sortedInsert, if_neg hlt, if_pos rfl]
        simp only [List.mem_cons]
        tauto
      · simp only [sortedInsert, if_neg hlt, if_neg heq, List.mem_cons, ih]
        tauto

theorem sorted_sortedInsert (x : List Char) (l : List (List Char))
    (h : l.Sorted (· < ·)) : (sortedInsert x l).Sorted (· < ·) := by
  induction l with
  | nil => simp [sortedInsert]
  | cons y ys ih =>
    rw [List.sorted_cons] at h
    by_cases hlt : x < y
    · rw [sortedInsert, if_pos hlt, List.sorted_cons]
      refine ⟨?_, by rw [List.sorted_cons]; exact h⟩
      intro b hb
      rcases List.mem_cons.mp hb with rfl | hb'
      · exact hlt
      · exact lt_trans hlt (h.1 b hb')
    · by_cases heq : x = y
      · subst heq
        rw [sortedInsert, if_neg hlt, if_pos rfl, List.sorted_cons]
        exact h
      · have hyx : y < x := lt_of_le_of_ne (le_of_not_lt hlt) (Ne.symm heq)
        rw [sortedInsert, if_neg hlt, if_neg heq, List.sorted_cons]
        refine ⟨?_, ih h.2⟩
        intro b hb
        rcases (mem_sortedInsert x b ys).mp hb with rfl | hb'
        · exact hyx
        · exact h.1 b hb'

theorem mem_foldl_sortedInsert :
    ∀ (l acc : List (List Char)) (z : List Char),
      z ∈ l.foldl (fun acc x => sortedInsert x acc) acc ↔ z ∈ acc ∨ z ∈ l := by
  intro l
  induction l with
  | nil => simp
  | cons x xs ih =>
    intro acc z
    rw [List.foldl_cons, ih, mem_sortedInsert]
    simp only [List.mem_cons]
    tauto

theorem sorted_foldl_sortedInsert :
    ∀ (l acc : List (List Char)), acc.Sorted (· < ·) →
      (l.foldl (fun acc x => sortedInsert x acc) acc).Sorted (· < ·) := by
  intro l
  induction l with
  | nil => intro acc h; exact h
  | cons x xs ih =>
    intro acc h
    rw [List.foldl_cons]
    exact ih _ (sorted_sortedInsert x acc h)

theorem mem_btreeCollect (l : List (List Char)) (z : List Char) :
    z ∈ btreeCollect l ↔ z ∈ l := by
  rw [btreeCollect, mem_foldl_sortedInsert]
  simp

theorem sorted_btreeCollect (l : List (List Char)) :
    (btreeCollect l).Sorted (· < ·) :=
  sorted_foldl_sortedInsert l [] (by simp)

/-- `collect()` into a `BTreeSet` is independent of the order in which the
inputs arrive. -/
theorem btreeCollect_perm (l1 l2 : List (List Char)) (h : l1.Perm l2) :
    btreeCollect l1 = btreeCollect l2 := by
  have s1 := sorted_btreeCollect l1
  have s2 := sorted_btreeCollect l2
  refine List.eq_of_perm_of_sorted ?_ s1 s2
  refine (List.perm_ext_iff_of_nodup s1.nodup s2.nodup).mpr ?_
  intro a
  rw [mem_btreeCollect, mem_btreeCollect]
  exact h.mem_iff

theorem absolute_path_congr (fs1 fs2 : FileSys) (p : List Char)
    (h : fs1.files = fs2.files) : absolute_path fs1 p = absolute_path fs2 p := by
  simp [absolute_path, h]

theorem mapAbsolute_congr (fs1 fs2 : FileSys) (h : fs1.files = fs2.files) :
    ∀ l, mapAbsolute fs1 l = mapAbsolute fs2 l := by
  intro l
  induction l with
  | nil => rfl
  | cons p rest ih =>
    simp only [mapAbsolute, absolute_path_congr fs1 fs2 p h, ih]

theorem digest_files_congr (fs1 fs2 : FileSys) (h : fs1.files = fs2.files) :
    ∀ l, digest_files fs1 l = digest_files fs2 l := by
  intro l
  induction l with
  | nil => rfl
  | cons p rest ih =>
    simp only [digest_files, h, ih]

/-- When every path exists, canonicalization is the identity on the list. -/
theorem mapAbsolute_ok (fs : FileSys) (l : List (List Char))
    (h : ∀ p ∈ l, (alookup fs.files p).isSome) : mapAbsolute fs l = .ok l := by
  induction l with
  | nil => rfl
  | cons p rest ih =>
    have hp : (alookup fs.files p).isSome := h p (List.mem_cons_self p rest)
    have hrest := ih fun q hq => h q (List.mem_cons_of_mem p hq)
    simp only [mapAbsolute, absolute_path, if_pos hp, hrest]

/-- A missing path makes canonicalization panic. -/
theorem mapAbsolute_panic (fs : FileSys) :
    ∀ l : List (List Char), (∃ p ∈ l, alookup fs.files p = none) →
      mapAbsolute fs l = .panic "[modelator] couldn't compute absolute path".data := by
  intro l
  induction l with
  | nil => rintro ⟨p, hp, -⟩; simp at hp
  | cons q rest ih =>
    rintro ⟨p, hp, hnone⟩
    by_cases hq : (alookup fs.files q).isSome
    · have hpq : p ≠ q := by
        rintro rfl
        rw [hnone] at hq
        simp at hq
      have hrest : ∃ p ∈ rest, alookup fs.files p = none :=
        ⟨p, (List.mem_cons.mp hp).resolve_left hpq, hnone⟩
      simp only [mapAbsolute, absolute_path, if_pos hq, ih hrest]
    · simp only [mapAbsolute, absolute_path, if_neg hq]

/-- Digesting a list of existing files succeeds. -/
theorem digest_files_ok (fs : FileSys) :
    ∀ l : List (List Char), (∀ p ∈ l, (alookup fs.files p).isSome) →
      ∃ D, digest_files fs l = .ok D := by
  intro l
  induction l with
  | nil => intro _; exact ⟨[], rfl⟩
  | cons p rest ih =>
    intro h
    have hp := h p (List.mem_cons_self p rest)
    obtain ⟨c, hc⟩ := Option.isSome_iff_exists.mp hp
    obtain ⟨D, hD⟩ := ih fun q hq => h q (List.mem_cons_of_mem p hq)
    exact ⟨c ++ D, by simp only [digest_files, hc, hD]⟩

/-- `cacheKey` unfolded past the directory read. -/
theorem cacheKey_eq (fs : FileSys) (f : TlaFile) (cfg : TlaConfigFile)
    (names : List (List Char)) (h : alookup fs.dirs f.dir = some names) :
    cacheKey fs f cfg =
      match mapAbsolute fs
          ((names.filter fun n => endsWithL ".tla".data n).map (joinPath f.dir)
            ++ [cfg.path]) with
      | .panic m => .panic m
      | .err e => .err e
      | .ok absPaths =>
        match digest_files fs (btreeCollect absPaths) with
        | .panic m => .panic m
        | .err e => .err e
        | .ok digest =>
          match absolute_path fs f.path with
          | .panic m => .panic m
          | .err e => .err e
          | .ok tlaAbs => .ok (digest ++ tlaAbs) := by
  simp only [cacheKey, read_dir, h]

/-- A successful `mapAbsolute` returns its input unchanged. -/
theorem mapAbsolute_ok_inv (fs : FileSys) :
    ∀ (l l' : List (List Char)), mapAbsolute fs l = .ok l' → l' = l := by
  intro l
  induction l with
  | nil => intro l' h'; cases h'; rfl
  | cons p rest ih =>
    intro l' h'
    rw [mapAbsolute] at h'
    rcases habs : absolute_path fs p with m | e | p'
    · rw [habs] at h'
      exact absurd h' (by intro hc; cases hc)
    · rw [habs] at h'
      exact absurd h' (by intro hc; cases hc)
    · rw [habs] at h'
      rcases hrest : mapAbsolute fs rest with m | e | ps
      · rw [hrest] at h'
        exact absurd h' (by intro hc; cases hc)
      · rw [hrest] at h'
        exact absurd h' (by intro hc; cases hc)
      · rw [hrest] at h'
        have hp : p' = p := by
          rw [absolute_path] at habs
          by_cases hs : (alookup fs.files p).isSome
          · rw [if_pos hs] at habs; cases habs; rfl
          · rw [if_neg hs] at habs; cases habs
        cases h'
        rw [hp, ih ps hrest]

/-- Inversion of a successful `cacheKey` computation: the key is the digest
of the sorted sibling-and-config set followed by the primary file's own
path. -/
theorem cacheKey_ok_inv (fs : FileSys) (f : TlaFile) (cfg : TlaConfigFile)
    (k : List Char) (h : cacheKey fs f cfg = .ok k) :
    ∃ names D, alookup fs.dirs f.dir = some names
      ∧ digest_files fs (btreeCollect
          ((names.filter fun n => endsWithL ".tla".data n).map (joinPath f.dir)
            ++ [cfg.path])) = .ok D
      ∧ k = D ++ f.path := by
  rcases hd : alookup fs.dirs f.dir with - | names
  · rw [cacheKey, read_dir, hd] at h
    cases h
  · rw [cacheKey_eq fs f cfg names hd] at h
    rcases hm : mapAbsolute fs
        ((names.filter fun n => endsWithL ".tla".data n).map (joinPath f.dir)
          ++ [cfg.path]) with m | e | absPaths
    · rw [hm] at h
      exact absurd h (by intro hc; cases hc)
    · rw [hm] at h
      exact absurd h (by intro hc; cases hc)
    · rw [hm] at h
      have habs : absPaths =
          (names.filter fun n => endsWithL ".tla".data n).map (joinPath f.dir)
            ++ [cfg.path] := mapAbsolute_ok_inv fs _ absPaths hm
      subst habs
      have hmatch : (match digest_files fs (btreeCollect
          ((names.filter fun n => endsWithL ".tla".data n).map (joinPath f.dir)
            ++ [cfg.path])) with
          | RunResult.panic m => RunResult.panic m
          | RunResult.err e => RunResult.err e
          | RunResult.ok digest =>
            match absolute_path fs f.path with
            | RunResult.panic m => RunResult.panic m
            | RunResult.err e => RunResult.err e
            | RunResult.ok tlaAbs => RunResult.ok (digest ++ tlaAbs))
          = RunResult.ok k := h
      rcases hdig : digest_files fs (btreeCollect
          ((names.filter fun n => endsWithL ".tla".data n).map (joinPath f.dir)
            ++ [cfg.path])) with m | e | D
      · rw [hdig] at hmatch
        exact absurd hmatch (by intro hc; cases hc)
      · rw [hdig] at hmatch
        exact absurd hmatch (by intro hc; cases hc)
      · rw [hdig] at hmatch
        have h2 : (match absolute_path fs f.path with
            | RunResult.panic m => RunResult.panic m
            | RunResult.err e => RunResult.err e
            | RunResult.ok tlaAbs => RunResult.ok (D ++ tlaAbs)) = RunResult.ok k := hmatch
        rcases hfin : absolute_path fs f.path with m | e | tlaAbs
        · rw [hfin] at h2
          exact absurd h2 (by intro hc; cases hc)
        · rw [hfin] at h2
          exact absurd h2 (by intro hc; cases hc)
        · rw [hfin] at h2
          have htla : tlaAbs = f.path := by
            rw [absolute_path] at hfin
            by_cases hs : (alookup fs.files f.path).isSome
            · rw [if_pos hs] at hfin; cases hfin; rfl
            · rw [if_neg hs] at hfin; cases hfin
          subst htla
          cases h2
          exact ⟨names, D, rfl, hdig, rfl⟩

/-- C5: the cache key digests the set of `.tla` siblings plus the config
file after canonicalization, sorting and deduplication, then the primary
file's own path: the key is therefore independent of the order in which the
directory listing returns the sibling files, and two distinct primary files
in the same directory sharing a configuration always receive different
keys. -/
theorem cacheKey_sorted_digest_distinct :
    (∀ (fs1 fs2 : FileSys) (f : TlaFile) (cfg : TlaConfigFile)
        (ns1 ns2 : List (List Char)),
        fs1.files = fs2.files →
        alookup fs1.dirs f.dir = some ns1 →
        alookup fs2.dirs f.dir = some ns2 →
        ns1.Perm ns2 →
        cacheKey fs1 f cfg = cacheKey fs2 f cfg)
    ∧ (∀ (fs : FileSys) (f1 f2 : TlaFile) (cfg : TlaConfigFile) (k1 k2 : List Char),
        f1.dir = f2.dir → f1.name ≠ f2.name →
        cacheKey fs f1 cfg = .ok k1 → cacheKey fs f2 cfg = .ok k2 →
        k1 ≠ k2) := by
  constructor
  · intro fs1 fs2 f cfg ns1 ns2 hfiles hd1 hd2 hperm
    rw [cacheKey_eq fs1 f cfg ns1 hd1, cacheKey_eq fs2 f cfg ns2 hd2]
    have hpl : ((ns1.filter fun n => endsWithL ".tla".data n).map (joinPath f.dir)
          ++ [cfg.path]).Perm
        ((ns2.filter fun n => endsWithL ".tla".data n).map (joinPath f.dir)
          ++ [cfg.path]) :=
      ((hperm.filter fun n => endsWithL ".tla".data n).map (joinPath f.dir)).append_right
        [cfg.path]
    by_cases hex : ∀ p ∈ (ns1.filter fun n => endsWithL ".tla".data n).map (joinPath f.dir)
        ++ [cfg.path], (alookup fs1.files p).isSome
    · have h1 := mapAbsolute_ok fs1 _ hex
      have h2 : mapAbsolute fs2 ((ns2.filter fun n => endsWithL ".tla".data n).map
          (joinPath f.dir) ++ [cfg.path]) = .ok _ :=
        mapAbsolute_ok fs2 _ fun p hp => by
          rw [← hfiles]
          exact hex p (hpl.mem_iff.mpr hp)
      simp only [h1, h2]
      rw [btreeCollect_perm _ _ hpl, digest_files_congr fs1 fs2 hfiles,
        absolute_path_congr fs1 fs2 f.path hfiles]
    · push_neg at hex
      obtain ⟨p, hp, hnone⟩ := hex
      have hnone' : alookup fs1.files p = none := by
        cases halt : alookup fs1.files p with
        | none => rfl
        | some c => rw [halt] at hnone; simp at hnone
      have h1 := mapAbsolute_panic fs1 _ ⟨p, hp, hnone'⟩
      have h2 := mapAbsolute_panic fs2 _
        ⟨p, hpl.mem_iff.mp hp, by rw [← hfiles]; exact hnone'⟩
      simp only [h1, h2]
  · intro fs f1 f2 cfg k1 k2 hdir hname hk1 hk2
    obtain ⟨names1, D1, hd1, hdig1, hk1'⟩ := cacheKey_ok_inv fs f1 cfg k1 hk1
    obtain ⟨names2, D2, hd2, hdig2, hk2'⟩ := cacheKey_ok_inv fs f2 cfg k2 hk2
    rw [← hdir] at hd2 hdig2
    have hnames : names1 = names2 := by
      rw [hd1] at hd2
      exact Option.some.inj hd2
    subst hnames
    rw [hdig1] at hdig2
    have hD : D1 = D2 := by
      cases hdig2
      rfl
    subst hD
    intro hks
    rw [hk1', hk2'] at hks
    have hpaths : f1.path = f2.path := List.append_cancel_left hks
    rw [TlaFile.path, TlaFile.path, ← hdir, joinPath, joinPath] at hpaths
    have := List.append_cancel_left hpaths
    exact hname (List.cons.inj this).2

/-- A two-file directory `d` listed in alphabetical order, with a config
file `c.cfg`, all present. -/
def fsA : FileSys :=
  ⟨[("d".data, ["a.tla".data, "b.tla".data])],
   [("d/a.tla".data, "A".data), ("d/b.tla".data, "B".data), ("c.cfg".data, "C".data)]⟩

/-- The same file system with the directory listing returned in the
opposite order. -/
def fsB : FileSys :=
  ⟨[("d".data, ["b.tla".data, "a.tla".data])],
   [("d/a.tla".data, "A".data), ("d/b.tla".data, "B".data), ("c.cfg".data, "C".data)]⟩

/-- The same file system with the config file missing. -/
def fsNoCfg : FileSys :=
  ⟨[("d".data, ["a.tla".data, "b.tla".data])],
   [("d/a.tla".data, "A".data), ("d/b.tla".data, "B".data)]⟩

def fA : TlaFile := ⟨"d".data, "a.tla".data⟩

def fB : TlaFile := ⟨"d".data, "b.tla".data⟩

def cfgC : TlaConfigFile := ⟨"c.cfg".data⟩

/-- C5 witness: on a concrete two-file directory, the key is unchanged when
the directory listing order flips, and the two primaries receive the two
distinct keys `CAB ++ d/a.tla` and `CAB ++ d/b.tla`. -/
theorem cacheKey_sorted_digest_distinct_witness :
    (cacheKey fsA fA cfgC = cacheKey fsB fA cfgC)
    ∧ "CABd/a.tla".data ≠ "CABd/b.tla".data :=
  ⟨cacheKey_sorted_digest_distinct.1 fsA fsB fA cfgC
      ["a.tla".data, "b.tla".data] ["b.tla".data, "a.tla".data]
      rfl rfl rfl (by decide),
   cacheKey_sorted_digest_distinct.2 fsA fA fB cfgC
      "CABd/a.tla".data "CABd/b.tla".data rfl (by decide) (by decide) (by decide)⟩

/-- C8 (amended): when the config file or the primary file has disappeared
(while the directory itself is still readable), the key computation fails
by panicking — `absolute_path` calls `canonicalize().unwrap()` — and never
by returning the `FileNotFound` error, which only `check_file_existence`
(artifact construction) produces. -/
theorem cacheKey_missing_file_panics (fs : FileSys) (f : TlaFile)
    (cfg : TlaConfigFile) (names : List (List Char))
    (hd : alookup fs.dirs f.dir = some names)
    (hmiss : alookup fs.files cfg.path = none ∨ alookup fs.files f.path = none) :
    (∃ m, cacheKey fs f cfg = .panic m)
    ∧ ∀ p, cacheKey fs f cfg ≠ .err (.FileNotFound p) := by
  have key_panic : ∃ m, cacheKey fs f cfg = .panic m := by
    by_cases hex : ∃ p ∈ (names.filter fun n => endsWithL ".tla".data n).map (joinPath f.dir)
        ++ [cfg.path], alookup fs.files p = none
    · refine ⟨"[modelator] couldn't compute absolute path".data, ?_⟩
      rw [cacheKey_eq fs f cfg names hd]
      simp only [mapAbsolute_panic fs _ hex]
    · push_neg at hex
      have hall : ∀ p ∈ (names.filter fun n => endsWithL ".tla".data n).map (joinPath f.dir)
          ++ [cfg.path], (alookup fs.files p).isSome := by
        intro p hp
        cases halt : alookup fs.files p with
        | none => exact absurd halt (hex p hp)
        | some c => simp
      have hcfg : (alookup fs.files cfg.path).isSome :=
        hall cfg.path (by simp)
      have hfmiss : alookup fs.files f.path = none := by
        rcases hmiss with hc | hf
        · rw [hc] at hcfg; simp at hcfg
        · exact hf
      obtain ⟨D, hdig⟩ := digest_files_ok fs _ fun p hp =>
        hall p ((mem_btreeCollect _ p).mp hp)
      refine ⟨"[modelator] couldn't compute absolute path".data, ?_⟩
      rw [cacheKey_eq fs f cfg names hd]
      simp only [mapAbsolute_ok fs _ hall, hdig, absolute_path, hfmiss,
        Option.isSome_none, Bool.false_eq_true, if_false]
  obtain ⟨m, hm⟩ := key_panic
  refine ⟨⟨m, hm⟩, fun p hc => ?_⟩
  rw [hm] at hc
  cases hc

/-- C8 counterexample: with the config file `c.cfg` removed, the key
computation for `d/a.tla` panics in `absolute_path`; it does not return
`FileNotFound` (nor any other error value). -/
theorem cacheKey_missing_file_not_filenotfound :
    cacheKey fsNoCfg fA cfgC = .panic "[modelator] couldn't compute absolute path".data
    ∧ ∀ p, cacheKey fsNoCfg fA cfgC ≠ .err (.FileNotFound p) := by
  have h : cacheKey fsNoCfg fA cfgC
      = .panic "[modelator] couldn't compute absolute path".data := by decide
  refine ⟨h, fun p hc => ?_⟩
  rw [h] at hc
  cases hc

/-- C8 witness: the amended claim instantiated at the concrete file system
with the missing config file. -/
theorem cacheKey_missing_file_panics_witness :
    (∃ m, cacheKey fsNoCfg fA cfgC = .panic m)
    ∧ ∀ p, cacheKey fsNoCfg fA cfgC ≠ .err (.FileNotFound p) :=
  cacheKey_missing_file_panics fsNoCfg fA cfgC ["a.tla".data, "b.tla".data]
    rfl (Or.inl rfl)

/-! ## Helper lemmas: output parser -/

/-- Strip the first line of a state body (the claim's "appended, with its
first line stripped"); total, defaulting to empty when the body has no
newline (where the source `unwrap`s). -/
def stripFirstLine (b : List Char) : List Char :=
  match splitOnceChar '\n' b with
  | some pr => pr.2
  | none => []

/-- Specification-side description of the trace extraction, for comparison
with the source's fold: `curr` is the run of states of the currently open
trace; each initial-predicate body closes it and starts a new one; every
body contributes its first-line-stripped text as one state; the last open
trace is emitted at end of stream. -/
def traceRuns (curr : List (List Char)) : List (List Char) → List (List (List Char))
  | [] => [curr]
  | b :: rest =>
    if isInitialBody b then
      curr :: traceRuns [stripFirstLine b] rest
    else
      traceRuns (curr ++ [stripFirstLine b]) rest

/-- Specification-side description of the traces extracted from the state
bodies: bodies before the first initial-predicate body belong to no trace;
each initial-predicate body opens a trace. -/
def tracesOfBodies : List (List Char) → List (List (List Char))
  | [] => []
  | b :: rest =>
    if isInitialBody b then
      traceRuns [stripFirstLine b] rest
    else
      tracesOfBodies rest

theorem buildTraces_cons_marker (b : List Char) (rest : List (List Char))
    (trace : Option TlaTrace) (traces : List TlaTrace) (pr : List Char × List Char)
    (hm : isInitialBody b = true) (hpr : splitOnceChar '\n' b = some pr) :
    buildTraces trace traces (b :: rest)
      = buildTraces (some [pr.2]) (traces ++ trace.toList) rest := by
  simp only [buildTraces, hm, eq_self_iff_true, if_true, hpr, List.nil_append]

theorem buildTraces_cons_other_open (b : List Char) (rest : List (List Char))
    (t : TlaTrace) (traces : List TlaTrace) (pr : List Char × List Char)
    (hm : isInitialBody b = false) (hpr : splitOnceChar '\n' b = some pr) :
    buildTraces (some t) traces (b :: rest)
      = buildTraces (some (t ++ [pr.2])) traces rest := by
  simp only [buildTraces, hm, Bool.false_eq_true, if_false, hpr]

theorem buildTraces_cons_other_closed (b : List Char) (rest : List (List Char))
    (traces : List TlaTrace) (hm : isInitialBody b = false) :
    buildTraces none traces (b :: rest) = buildTraces none traces rest := by
  simp only [buildTraces, hm, Bool.false_eq_true, if_false]

/-- The source's fold with an open trace equals the specification-side run
decomposition, when every body still to come has a first line. -/
theorem buildTraces_open (bodies : List (List Char)) :
    ∀ (t : TlaTrace) (traces : List TlaTrace),
      (∀ b ∈ bodies, (splitOnceChar '\n' b).isSome) →
      buildTraces (some t) traces bodies = .ok (traces ++ traceRuns t bodies) := by
  induction bodies with
  | nil =>
    intro t traces _
    simp [buildTraces, traceRuns, Option.toList]
  | cons b rest ih =>
    intro t traces h
    obtain ⟨pr, hpr⟩ := Option.isSome_iff_exists.mp (h b (List.mem_cons_self b rest))
    have hstrip : stripFirstLine b = pr.2 := by rw [stripFirstLine, hpr]
    have hrest := fun q hq => h q (List.mem_cons_of_mem b hq)
    by_cases hm : isInitialBody b
    · rw [buildTraces_cons_marker b rest (some t) traces pr hm hpr,
        ih [pr.2] (traces ++ (some t).toList) hrest, traceRuns, if_pos hm, hstrip]
      simp [Option.toList]
    · rw [buildTraces_cons_other_open b rest t traces pr
          (Bool.not_eq_true _ ▸ eq_false_of_ne_true hm) hpr,
        ih (t ++ [pr.2]) traces hrest, traceRuns,
        if_neg hm, hstrip]

/-- The source's fold with no open trace equals the specification-side
extraction, when every body has a first line. -/
theorem buildTraces_closed (bodies : List (List Char)) :
    ∀ traces : List TlaTrace,
      (∀ b ∈ bodies, (splitOnceChar '\n' b).isSome) →
      buildTraces none traces bodies = .ok (traces ++ tracesOfBodies bodies) := by
  induction bodies with
  | nil =>
    intro traces _
    simp [buildTraces, tracesOfBodies, Option.toList]
  | cons b rest ih =>
    intro traces h
    obtain ⟨pr, hpr⟩ := Option.isSome_iff_exists.mp (h b (List.mem_cons_self b rest))
    have hstrip : stripFirstLine b = pr.2 := by rw [stripFirstLine, hpr]
    have hrest := fun q hq => h q (List.mem_cons_of_mem b hq)
    by_cases hm : isInitialBody b
    · rw [buildTraces_cons_marker b rest none traces pr hm hpr,
        buildTraces_open rest [pr.2] (traces ++ (none : Option TlaTrace).toList) hrest,
        tracesOfBodies, if_pos hm, hstrip]
      simp [Option.toList]
    · rw [buildTraces_cons_other_closed b rest traces
          (Bool.not_eq_true _ ▸ eq_false_of_ne_true hm),
        ih traces hrest, tracesOfBodies, if_neg hm]

theorem traceRuns_length (bodies : List (List Char)) :
    ∀ curr, (traceRuns curr bodies).length = 1 + (bodies.filter isInitialBody).length := by
  induction bodies with
  | nil => intro curr; simp [traceRuns]
  | cons b rest ih =>
    intro curr
    by_cases hm : isInitialBody b
    · rw [traceRuns, if_pos hm]
      simp only [List.length_cons, ih, List.filter_cons, hm, eq_self_iff_true,
        if_true, List.length_cons]
      omega
    · rw [traceRuns, if_neg hm]
      have hm' : isInitialBody b = false := Bool.not_eq_true _ ▸ eq_false_of_ne_true hm
      simp only [ih, List.filter_cons, hm', Bool.false_eq_true, if_false]

theorem tracesOfBodies_length (bodies : List (List Char)) :
    (tracesOfBodies bodies).length = (bodies.filter isInitialBody).length := by
  induction bodies with
  | nil => simp [tracesOfBodies]
  | cons b rest ih =>
    by_cases hm : isInitialBody b
    · rw [tracesOfBodies, if_pos hm, traceRuns_length]
      simp only [List.filter_cons, hm, eq_self_iff_true, if_true, List.length_cons]
      omega
    · rw [tracesOfBodies, if_neg hm, ih]
      have hm' : isInitialBody b = false := Bool.not_eq_true _ ▸ eq_false_of_ne_true hm
      simp only [List.filter_cons, hm', Bool.false_eq_true, if_false]

/-- Bodies preceding the first initial-predicate body contribute nothing. -/
theorem tracesOfBodies_append_no_marker (pre : List (List Char))
    (post : List (List Char)) (hpre : ∀ b ∈ pre, isInitialBody b = false) :
    tracesOfBodies (pre ++ post) = tracesOfBodies post := by
  induction pre with
  | nil => simp
  | cons b rest ih =>
    have hb := hpre b (List.mem_cons_self b rest)
    rw [List.cons_append, tracesOfBodies, if_neg (by simp [hb])]
    exact ih fun q hq => hpre q (List.mem_cons_of_mem b hq)

/-- A body produced by the grouping loop: empty, or ending in a newline
(every accumulated line is pushed together with its `'\n'`). -/
def GoodBody (b : List Char) : Prop :=
  b = [] ∨ ∃ a, b = a ++ ['\n']

/-- Invariant of the grouping loop: every grouped body and the accumulated
current message are `GoodBody`. -/
def GoodState (st : GroupState) : Prop :=
  (∀ e ∈ st.grouped, ∀ b ∈ e.2, GoodBody b) ∧ GoodBody st.currMsg

theorem groupPush_good (k : Nat × Nat) (body : List Char) :
    ∀ g : Grouped, (∀ e ∈ g, ∀ b ∈ e.2, GoodBody b) → GoodBody body →
      ∀ e ∈ groupPush k body g, ∀ b ∈ e.2, GoodBody b := by
  intro g
  induction g with
  | nil =>
    intro _ hbody e he b hb
    simp only [groupPush, List.mem_singleton] at he
    subst he
    simp only [List.mem_singleton] at hb
    subst hb
    exact hbody
  | cons e0 rest ih =>
    intro hg hbody e he b hb
    rcases e0 with ⟨k0, bs0⟩
    rw [groupPush] at he
    by_cases hk : k0 = k
    · rw [if_pos hk] at he
      rcases List.mem_cons.mp he with rfl | he'
      · rcases List.mem_append.mp hb with hb' | hb'
        · exact hg (k0, bs0) (List.mem_cons_self _ _) b hb'
        · rw [List.mem_singleton] at hb'
          subst hb'
          exact hbody
      · exact hg e (List.mem_cons_of_mem _ he') b hb
    · rw [if_neg hk] at he
      rcases List.mem_cons.mp he with rfl | he'
      · exact hg (k0, bs0) (List.mem_cons_self _ _) b hb
      · exact ih (fun e' he'' => hg e' (List.mem_cons_of_mem _ he'')) hbody e he' b hb

theorem flushCurr_good (st : GroupState) (h : GoodState st) :
    GoodState (flushCurr st) := by
  refine ⟨?_, Or.inl rfl⟩
  exact groupPush_good _ _ st.grouped h.1 h.2

theorem processLine_good (st : GroupState) (line : List Char) (st' : GroupState)
    (h : GoodState st) (hp : processLine st line = .ok st') : GoodState st' := by
  rw [processLine] at hp
  by_cases h1 : hasPrefixL "@!@!@STARTMSG ".data line
  · simp only [h1, if_true] at hp
    rcases hf : (splitAtChar ' ' line)[1]? with - | field
    · simp only [hf] at hp
      cases hp
    · simp only [hf] at hp
      rcases hs : splitOnceChar ':' field with - | ⟨codeS, classS⟩
      · simp only [hs] at hp
        cases hp
      · simp only [hs] at hp
        rcases hc : parseNatR codeS with - | code
        · simp only [hc] at hp
          cases hp
        · simp only [hc] at hp
          rcases hl : parseNatR classS with - | class'
          · simp only [hl] at hp
            cases hp
          · simp only [hl] at hp
            by_cases hb : class' ≤ 255
            · rw [if_pos hb] at hp
              cases hp
              exact ⟨(flushCurr_good st h).1, (flushCurr_good st h).2⟩
            · rw [if_neg hb] at hp
              cases hp
  · simp only [h1, Bool.false_eq_true, if_false] at hp
    by_cases h2 : hasPrefixL "@!@!@ENDMSG ".data line
    · simp only [h2, if_true] at hp
      rcases hf : (splitAtChar ' ' line)[1]? with - | field
      · simp only [hf] at hp
        cases hp
      · simp only [hf] at hp
        rcases hc : parseNatR field with - | cCode
        · simp only [hc] at hp
          cases hp
        · simp only [hc] at hp
          by_cases he : (st.currId.getD (0, 0)).1 = cCode
          · rw [if_pos he] at hp
            cases hp
            exact flushCurr_good st h
          · rw [if_neg he] at hp
            cases hp
    · simp only [h2, Bool.false_eq_true, if_false] at hp
      cases hp
      refine ⟨h.1, Or.inr ⟨st.currMsg ++ line, by simp⟩⟩

theorem processLines_good (lines : List (List Char)) :
    ∀ (st st' : GroupState), GoodState st →
      processLines st lines = .ok st' → GoodState st' := by
  induction lines with
  | nil =>
    intro st st' h hp
    rw [processLines] at hp
    cases hp
    exact h
  | cons line rest ih =>
    intro st st' h hp
    rw [processLines] at hp
    rcases hl : processLine st line with m | st1
    · rw [hl] at hp; cases hp
    · rw [hl] at hp
      exact ih st1 st' (processLine_good st line st1 h hl) hp

/-- Every body in the grouped output of the parser is empty or ends in a
newline. -/
theorem groupOutput_good (lines : List (List Char)) (st : GroupState)
    (h : groupOutput lines = .ok st) :
    ∀ e ∈ st.grouped, ∀ b ∈ e.2, GoodBody b :=
  (processLines_good lines ⟨[], none, []⟩ st ⟨by simp, Or.inl rfl⟩ h).1

theorem splitOnceChar_isSome_of_mem (c : Char) :
    ∀ l : List Char, c ∈ l → (splitOnceChar c l).isSome := by
  intro l
  induction l with
  | nil => intro h; cases h
  | cons x xs ih =>
    intro h
    rw [splitOnceChar]
    by_cases hx : x = c
    · rw [if_pos hx]; rfl
    · rw [if_neg hx]
      have hc : c ∈ xs := by
        rcases List.mem_cons.mp h with rfl | h'
        · exact absurd rfl hx
        · exact h'
      rcases hs : splitOnceChar c xs with - | pr
      · rw [hs] at ih
        exact absurd (ih hc) (by simp)
      · simp

/-- A nonempty grouped body has a first line. -/
theorem goodBody_isSome (b : List Char) (h : GoodBody b) (hne : b ≠ []) :
    (splitOnceChar '\n' b).isSome := by
  rcases h with rfl | ⟨a, rfl⟩
  · exact absurd rfl hne
  · exact splitOnceChar_isSome_of_mem '\n' _
      (List.mem_append_right a (List.mem_singleton.mpr rfl))

/-- The bodies returned by `groupGet` are bodies of some grouped entry. -/
theorem groupGet_bodies (g : Grouped) (k : Nat × Nat) (bs : List (List Char))
    (h : groupGet g k = some bs) : ∃ e ∈ g, e.2 = bs := by
  rw [groupGet] at h
  rcases hf : g.find? (fun e => e.1 = k) with - | e
  · rw [hf] at h; cases h
  · rw [hf] at h
    cases h
    exact ⟨e, List.mem_of_find?_eq_some hf, rfl⟩

theorem occursIn_of_occursIn_right (x s t : List Char) (h : OccursIn x t) :
    OccursIn x (s ++ t) := by
  obtain ⟨u, v, rfl⟩ := h
  exact ⟨s ++ u, v, by simp⟩

theorem occursIn_trans (x y m : List Char) (hx : OccursIn x y) (hy : OccursIn y m) :
    OccursIn x m := by
  obtain ⟨u, v, rfl⟩ := hx
  obtain ⟨s, t, rfl⟩ := hy
  exact ⟨s ++ u, v ++ t, by simp⟩

theorem occursIn_joinSep (sep : List Char) :
    ∀ (l : List (List Char)) (x : List Char), x ∈ l → OccursIn x (joinSep sep l) := by
  intro l
  induction l with
  | nil => intro x hx; cases hx
  | cons y rest ih =>
    intro x hx
    cases rest with
    | nil =>
      rw [List.mem_singleton] at hx
      subst hx
      exact ⟨[], [], by simp [joinSep]⟩
    | cons z zs =>
      rcases List.mem_cons.mp hx with rfl | hx'
      · exact ⟨[], sep ++ joinSep sep (z :: zs), by simp [joinSep]⟩
      · have := ih x hx'
        rw [joinSep]
        exact occursIn_of_occursIn_right x (y ++ sep) _ this

/-- Every (trimmed, newline-flattened) error body occurs inside the built
failure message. -/
theorem occursIn_tlcFailureMessage (rt : ModelCheckerRuntime)
    (errors : List (Nat × List (List Char))) (code : Nat)
    (bodies : List (List Char)) (b : List Char)
    (he : (code, bodies) ∈ errors) (hb : b ∈ bodies) :
    OccursIn (replaceNl (trimL b)) (tlcFailureMessage rt errors) := by
  have h1 : replaceNl (trimL b) ∈ bodies.map fun x => replaceNl (trimL x) :=
    List.mem_map_of_mem _ hb
  have h2 : OccursIn (replaceNl (trimL b))
      (joinSep " ".data (bodies.map fun x => replaceNl (trimL x))) :=
    occursIn_joinSep " ".data _ _ h1
  have h3 : OccursIn (replaceNl (trimL b))
      ("[".data ++ rt.log ++ ":".data ++ (Nat.repr code).data ++ "]: ".data ++
        joinSep " ".data (bodies.map fun x => replaceNl (trimL x))) := by
    simp only [List.append_assoc]
    exact occursIn_of_occursIn_right _ _ _ (occursIn_of_occursIn_right _ _ _
      (occursIn_of_occursIn_right _ _ _ (occursIn_of_occursIn_right _ _ _
        (occursIn_of_occursIn_right _ _ _ h2))))
  have h4 : ("[".data ++ rt.log ++ ":".data ++ (Nat.repr code).data ++ "]: ".data ++
      joinSep " ".data (bodies.map fun x => replaceNl (trimL x)))
      ∈ errors.map fun e => "[".data ++ rt.log ++ ":".data ++ (Nat.repr e.1).data
        ++ "]: ".data ++ joinSep " ".data (e.2.map fun x => replaceNl (trimL x)) := by
    have := List.mem_map_of_mem (fun e : Nat × List (List Char) =>
      "[".data ++ rt.log ++ ":".data ++ (Nat.repr e.1).data ++ "]: ".data ++
        joinSep " ".data (e.2.map fun x => replaceNl (trimL x))) he
    exact this
  have h5 := occursIn_joinSep "\n".data _ _ h4
  refine occursIn_trans _ _ _ h3 ?_
  rw [tlcFailureMessage]
  exact h5

/-- Unfolding `parse_traces` on a grouped stream with class-4 / code-2217
state bodies, none of them empty: the result is exactly the
specification-side trace extraction. -/
theorem parse_traces_of_state_bodies (lines : List (List Char))
    (rt : ModelCheckerRuntime) (st : GroupState) (bodies : List (List Char))
    (hgo : groupOutput lines = .ok st)
    (hget : groupGet st.grouped (4, 2217) = some bodies)
    (hne : [] ∉ bodies) :
    parse_traces lines rt = .ok (tracesOfBodies bodies) := by
  have hsome : ∀ b ∈ bodies, (splitOnceChar '\n' b).isSome := by
    intro b hb
    obtain ⟨e, he, hbs⟩ := groupGet_bodies st.grouped (4, 2217) bodies hget
    refine goodBody_isSome b ?_ ?_
    · exact groupOutput_good lines st hgo e he b (by rw [hbs]; exact hb)
    · intro hbe
      subst hbe
      exact hne hb
  simp only [parse_traces, hgo, hget]
  rw [buildTraces_closed bodies [] hsome]
  simp

/-- The log-file runtime used by the concrete witnesses. -/
def mcRuntime : ModelCheckerRuntime := ⟨"mc.log".data⟩

/-- C1: on a stream whose grouped output has a (non-empty, no empty body)
state-body list at class 4 / code 2217, `parse_traces` builds the traces by
iterating the bodies in order — an initial-predicate body closes and emits
any open trace and starts a new one, every body is appended first-line
stripped as one state of the open trace, and the last open trace is emitted
at end of stream (`tracesOfBodies`); the number of traces equals the number
of initial-predicate bodies; and two consecutive initial-predicate bodies
yield exactly two traces of one state each. -/
theorem parse_traces_trace_extraction (lines : List (List Char))
    (rt : ModelCheckerRuntime) (st : GroupState) (bodies : List (List Char))
    (hgo : groupOutput lines = .ok st)
    (hget : groupGet st.grouped (4, 2217) = some bodies)
    (hne : [] ∉ bodies) :
    parse_traces lines rt = .ok (tracesOfBodies bodies)
    ∧ (tracesOfBodies bodies).length = (bodies.filter isInitialBody).length
    ∧ ∀ b1 b2, bodies = [b1, b2] → isInitialBody b1 = true → isInitialBody b2 = true →
        parse_traces lines rt = .ok [[stripFirstLine b1], [stripFirstLine b2]] := by
  have hmain := parse_traces_of_state_bodies lines rt st bodies hgo hget hne
  refine ⟨hmain, tracesOfBodies_length bodies, ?_⟩
  intro b1 b2 hb hm1 hm2
  subst hb
  rw [hmain, tracesOfBodies, if_pos hm1, traceRuns, if_pos hm2, traceRuns]

/-- The stream of two initial-predicate state messages. -/
def twoTraceStream : List (List Char) :=
  ["@!@!@STARTMSG 2217:4 @!@!@".data,
   "1: <Initial predicate>".data,
   "x = 1".data,
   "@!@!@ENDMSG 2217 @!@!@".data,
   "@!@!@STARTMSG 2217:4 @!@!@".data,
   "1: <Initial predicate>".data,
   "x = 2".data,
   "@!@!@ENDMSG 2217 @!@!@".data]

/-- The grouped state of `twoTraceStream`. -/
def twoTraceState : GroupState :=
  ⟨[((0, 0), [[], []]),
    ((4, 2217), ["1: <Initial predicate>\nx = 1\n".data,
                 "1: <Initial predicate>\nx = 2\n".data])],
   none, []⟩

/-- C1 witness: the two-initial-predicate stream yields exactly the two
one-state traces `x = 1` and `x = 2`. -/
theorem parse_traces_trace_extraction_witness :
    parse_traces twoTraceStream mcRuntime
      = .ok [["x = 1\n".data], ["x = 2\n".data]] := by
  have h := parse_traces_trace_extraction twoTraceStream mcRuntime twoTraceState
    ["1: <Initial predicate>\nx = 1\n".data, "1: <Initial predicate>\nx = 2\n".data]
    (by rfl) (by decide) (by decide)
  have h3 := h.2.2 "1: <Initial predicate>\nx = 1\n".data
    "1: <Initial predicate>\nx = 2\n".data rfl (by decide) (by decide)
  exact h3.trans (by decide)

/-- C2: on a stream with no class-4 / code-2217 state bodies,
`parse_traces` fails with `TLCFailure` exactly when class 1 (error
messages) is populated — the message being one `[<log-path>:<code>]: <bodies
flattened to one line>` line per error code, joined by newlines, so it
contains every (flattened) error body — and succeeds with the empty trace
list when class 1 is empty too. -/
theorem parse_traces_error_reporting (lines : List (List Char))
    (rt : ModelCheckerRuntime) (st : GroupState)
    (hgo : groupOutput lines = .ok st)
    (hget : groupGet st.grouped (4, 2217) = none) :
    (classEntries st.grouped 1 = [] → parse_traces lines rt = .ok [])
    ∧ (classEntries st.grouped 1 ≠ [] →
        parse_traces lines rt
          = .err (.TLCFailure (tlcFailureMessage rt (classEntries st.grouped 1)))
        ∧ ∀ code bodies b, (code, bodies) ∈ classEntries st.grouped 1 → b ∈ bodies →
            OccursIn (replaceNl (trimL b))
              (tlcFailureMessage rt (classEntries st.grouped 1))) := by
  constructor
  · intro hce
    simp only [parse_traces, hgo, hget, hce]
  · intro hce
    rcases hcee : classEntries st.grouped 1 with - | ⟨e0, rest⟩
    · exact absurd hcee hce
    · refine ⟨?_, ?_⟩
      · simp only [parse_traces, hgo, hget, hcee]
      · intro code bodies b he hb
        exact occursIn_tlcFailureMessage rt _ code bodies b he hb

/-- The stream with a single class-1 error message. -/
def errorStream : List (List Char) :=
  ["@!@!@STARTMSG 2110:1 @!@!@".data,
   "Invariant violated".data,
   "@!@!@ENDMSG 2110 @!@!@".data]

/-- The grouped state of `errorStream`. -/
def errorState : GroupState :=
  ⟨[((0, 0), [[]]), ((1, 2110), ["Invariant violated\n".data])], none, []⟩

/-- C2 witness: the single-error stream fails with the formatted
`TLCFailure` message, which contains the flattened error body. -/
theorem parse_traces_error_reporting_witness :
    parse_traces errorStream mcRuntime
      = .err (.TLCFailure (tlcFailureMessage mcRuntime (classEntries errorState.grouped 1)))
    ∧ OccursIn (replaceNl (trimL "Invariant violated\n".data))
        (tlcFailureMessage mcRuntime (classEntries errorState.grouped 1)) := by
  have h := parse_traces_error_reporting errorStream mcRuntime errorState
    (by rfl) (by decide)
  have h2 := h.2 (by decide)
  exact ⟨h2.1, h2.2 2110 ["Invariant violated\n".data] "Invariant violated\n".data
    (by decide) (by decide)⟩

/-- C10: state bodies preceding the first initial-predicate body are
silently skipped: they are appended to no trace and cause no error, and the
returned trace list is built only from the bodies at or after the first
initial-predicate body. -/
theorem parse_traces_skips_preinitial (lines : List (List Char))
    (rt : ModelCheckerRuntime) (st : GroupState) (pre post : List (List Char))
    (hgo : groupOutput lines = .ok st)
    (hget : groupGet st.grouped (4, 2217) = some (pre ++ post))
    (hpre : ∀ b ∈ pre, isInitialBody b = false)
    (hne : [] ∉ pre ++ post) :
    parse_traces lines rt = .ok (tracesOfBodies post) := by
  have hmain := parse_traces_of_state_bodies lines rt st (pre ++ post) hgo hget hne
  rw [tracesOfBodies_append_no_marker pre post hpre] at hmain
  exact hmain

/-- A stream whose first state body is not an initial-predicate body. -/
def skipStream : List (List Char) :=
  ["@!@!@STARTMSG 2217:4 @!@!@".data,
   "some junk".data,
   "@!@!@ENDMSG 2217 @!@!@".data,
   "@!@!@STARTMSG 2217:4 @!@!@".data,
   "1: <Initial predicate>".data,
   "x = 1".data,
   "@!@!@ENDMSG 2217 @!@!@".data]

/-- The grouped state of `skipStream`. -/
def skipState : GroupState :=
  ⟨[((0, 0), [[], []]),
    ((4, 2217), ["some junk\n".data, "1: <Initial predicate>\nx = 1\n".data])],
   none, []⟩

/-- C10 witness: the pre-initial body `some junk` is skipped and only the
trace started by the initial-predicate body is returned. -/
theorem parse_traces_skips_preinitial_witness :
    parse_traces skipStream mcRuntime
      = .ok (tracesOfBodies ["1: <Initial predicate>\nx = 1\n".data]) :=
  parse_traces_skips_preinitial skipStream mcRuntime skipState
    ["some junk\n".data] ["1: <Initial predicate>\nx = 1\n".data]
    (by rfl) (by decide) (by decide) (by decide)

theorem processLines_append (l1 : List (List Char)) :
    ∀ (st : GroupState) (l2 : List (List Char)),
      processLines st (l1 ++ l2)
        = match processLines st l1 with
          | .error m => .error m
          | .ok st' => processLines st' l2 := by
  induction l1 with
  | nil => intro st l2; rfl
  | cons line rest ih =>
    intro st l2
    rw [List.cons_append, processLines]
    rcases hl : processLine st line with m | st1
    · simp only [processLines, hl]
    · simp only [processLines, hl]
      exact ih st1 l2

/-- C7 (amended): an `ENDMSG` line whose integer code differs from the code
of the message currently open makes the parser panic — the `assert_eq!` in
the source fails — so it neither returns traces nor returns any error
value (in particular not `InvalidTLCOutput`). -/
theorem parse_traces_endmsg_mismatch (pre post : List (List Char))
    (restL : List Char) (rt : ModelCheckerRuntime) (st : GroupState)
    (fld : List Char) (c : Nat)
    (hpre : processLines ⟨[], none, []⟩ pre = .ok st)
    (hfield : (splitAtChar ' ' ("@!@!@ENDMSG ".data ++ restL))[1]? = some fld)
    (hparse : parseNatR fld = some c)
    (hne : (st.currId.getD (0, 0)).1 ≠ c) :
    parse_traces (pre ++ ("@!@!@ENDMSG ".data ++ restL) :: post) rt
        = .panic "assertion failed: left == right".data
    ∧ (∀ ts, parse_traces (pre ++ ("@!@!@ENDMSG ".data ++ restL) :: post) rt ≠ .ok ts)
    ∧ (∀ e, parse_traces (pre ++ ("@!@!@ENDMSG ".data ++ restL) :: post) rt ≠ .err e) := by
  have hnotstart : hasPrefixL "@!@!@STARTMSG ".data ("@!@!@ENDMSG ".data ++ restL)
      = false := rfl
  have hend : hasPrefixL "@!@!@ENDMSG ".data ("@!@!@ENDMSG ".data ++ restL)
      = true := rfl
  have hline : processLine st ("@!@!@ENDMSG ".data ++ restL)
      = .error "assertion failed: left == right".data := by
    rw [processLine]
    simp only [hnotstart, Bool.false_eq_true, if_false, hend, if_true, hfield, hparse]
    rw [if_neg hne]
  have hgroup : groupOutput (pre ++ ("@!@!@ENDMSG ".data ++ restL) :: post)
      = .error "assertion failed: left == right".data := by
    rw [groupOutput, processLines_append pre ⟨[], none, []⟩
      (("@!@!@ENDMSG ".data ++ restL) :: post)]
    simp only [hpre, processLines, hline]
  have hmain : parse_traces (pre ++ ("@!@!@ENDMSG ".data ++ restL) :: post) rt
      = .panic "assertion failed: left == right".data := by
    simp only [parse_traces, hgroup]
  refine ⟨hmain, fun ts hc => ?_, fun e hc => ?_⟩
  · rw [hmain] at hc
    cases hc
  · rw [hmain] at hc
    cases hc

/-- A stream whose `ENDMSG` code (2218) differs from the `STARTMSG` code
(2217) of the message it closes. -/
def mismatchStream : List (List Char) :=
  ["@!@!@STARTMSG 2217:4 @!@!@".data,
   "1: <Initial predicate>".data,
   "x = 1".data,
   "@!@!@ENDMSG 2218 @!@!@".data]

/-- C7 counterexample: on the mismatched stream the parser panics
(assertion failure); it does not return any error value, so in particular
it does not fail with the `InvalidTLCOutput` error the claim names. -/
theorem parse_traces_endmsg_mismatch_counterexample :
    parse_traces mismatchStream mcRuntime
        = .panic "assertion failed: left == right".data
    ∧ ∀ e, parse_traces mismatchStream mcRuntime ≠ .err e := by
  have h : parse_traces mismatchStream mcRuntime
      = .panic "assertion failed: left == right".data := by decide
  exact ⟨h, fun e hc => by rw [h] at hc; cases hc⟩

/-- The grouped state after the opening `STARTMSG 2217:4` line and the two
content lines of `mismatchStream`. -/
def mismatchPreState : GroupState :=
  ⟨[((0, 0), [[]])], some (2217, 4), "1: <Initial predicate>\nx = 1\n".data⟩

/-- C7 witness: the amended claim instantiated on the concrete mismatched
stream. -/
theorem parse_traces_endmsg_mismatch_witness :
    parse_traces (["@!@!@STARTMSG 2217:4 @!@!@".data,
        "1: <Initial predicate>".data, "x = 1".data]
        ++ ("@!@!@ENDMSG ".data ++ "2218 @!@!@".data) :: []) mcRuntime
      = .panic "assertion failed: left == right".data :=
  (parse_traces_endmsg_mismatch
    ["@!@!@STARTMSG 2217:4 @!@!@".data, "1: <Initial predicate>".data, "x = 1".data]
    [] "2218 @!@!@".data mcRuntime mismatchPreState "2218".data 2218
    (by rfl) (by decide) (by decide) (by decide)).1
